import Mathlib

/-!
Verification of the background data-refresh subsystem of `bcm2711-deskpet-panel`.

The definitions below are a shallow embedding of:
- `app/models.py` (`WeatherNow`),
- `app/services/weather_service.py` (`WeatherService._worker_loop`,
  `WeatherService._sleep_or_stop`, `_load_json`, `_save_json`),
- `app/main.py` (`weather_worker`, `network_worker`),
- `app/ticker_queue.py` (`TickerItem`, `TickerQueue`),
- `app/collectors/shwg.py` (`fetch_quote`, `fetch_lunar`).

Python float timestamps and TTLs are modelled as `Nat`; network and filesystem
effects are modelled by passing the outcome of each effectful call explicitly,
so every embedded function is total and executable.
-/

/- ### `app/models.py`: the `WeatherNow` dataclass, with its field defaults -/

structure WeatherNow where
  ok : Bool
  stale : Bool
  location_name : String
  temp_c : String
  text : String
  icon : String
  obs_time : String
  update_time : String
  last_ok_ts : Nat
  err : String
  deriving Repr, DecidableEq

/-- Field defaults of the `WeatherNow` dataclass: `WeatherNow()` in Python. -/
def WeatherNow.init : WeatherNow :=
  { ok := false
    stale := true
    location_name := "-"
    temp_c := "-"
    text := "-"
    icon := "-"
    obs_time := "-"
    update_time := "-"
    last_ok_ts := 0
    err := "" }

/- ### `WeatherService._worker_loop` (`app/services/weather_service.py`)

The loop is embedded as a state machine.  One loop iteration either completes
its `try` block (a successful fetch, carrying the strings extracted from the
response and the `time.time()` stamp taken at line 195) or raises (any
exception, carried as the string `str(e)`).  The published `self._weather`
and the local `backoff` variable form the state.  `weather_worker` in
`app/main.py` has the identical publish/backoff logic, so this machine embeds
both variants. -/

/-- Contents of the parsed `weather_now.json` cache dict.  Each field is
`Option`al because the Python code reads it with `weather_cache.get(key,
default)`; a key absent from the dict yields the default. -/
structure CacheRecord where
  location_name : Option String
  temp_c : Option String
  text : Option String
  icon : Option String
  obs_time : Option String
  update_time : Option String
  last_ok_ts : Option Nat
  deriving Repr, DecidableEq

/-- Lines 124-137 of `weather_service.py`: the `WeatherNow` published when the
on-disk weather cache is non-empty, before the first network round-trip. -/
def seedFromCache (c : CacheRecord) : WeatherNow :=
  { ok := true
    stale := true
    location_name := c.location_name.getD "-"
    temp_c := c.temp_c.getD "-"
    text := c.text.getD "-"
    icon := c.icon.getD "-"
    obs_time := c.obs_time.getD "-"
    update_time := c.update_time.getD "-"
    last_ok_ts := c.last_ok_ts.getD 0
    err := "(cache)" }

/-- The strings the success path extracts from the API responses
(lines 183-194 of `weather_service.py`). -/
structure FetchData where
  location_name : String
  temp_c : String
  text : String
  icon : String
  obs_time : String
  update_time : String
  deriving Repr, DecidableEq

/-- Outcome of one iteration of the `while` loop's `try` block: either the
whole block ran (success), or some exception `e` was raised and caught. -/
inductive FetchResult where
  | ok (d : FetchData) (now : Nat)
  | fail (err : String)
  deriving Repr, DecidableEq

/-- State of the worker loop: the published `self._weather` cell plus the
loop-local `backoff` variable. -/
structure PollerState where
  weather : WeatherNow
  backoff : Nat
  deriving Repr, DecidableEq

/-- State at loop entry: `self._weather` is the dataclass default, replaced by
the cache seed when the loaded cache dict is non-empty (lines 124-137), and
`backoff = 5` (line 152). -/
def initState (cache : Option CacheRecord) : PollerState :=
  { weather := match cache with
      | none => WeatherNow.init
      | some c => seedFromCache c
    backoff := 5 }

/-- One loop iteration.  Success (lines 186-197, 240): publish a fresh
`WeatherNow` with `ok=True, stale=False, err=""`, and reset `backoff = 5`.
Failure (lines 244-261): republish the previous value with only `stale` set
to `True` and `err` set to `str(e)[:60]`, then `backoff = min(backoff*2, 300)`
after the sleep. -/
def stepWorker (s : PollerState) : FetchResult → PollerState
  | .ok d now =>
      { weather :=
          { ok := true
            stale := false
            location_name := d.location_name
            temp_c := d.temp_c
            text := d.text
            icon := d.icon
            obs_time := d.obs_time
            update_time := d.update_time
            last_ok_ts := now
            err := "" }
        backoff := 5 }
  | .fail e =>
      { weather :=
          { ok := s.weather.ok
            stale := true
            location_name := s.weather.location_name
            temp_c := s.weather.temp_c
            text := s.weather.text
            icon := s.weather.icon
            obs_time := s.weather.obs_time
            update_time := s.weather.update_time
            last_ok_ts := s.weather.last_ok_ts
            err := e.take 60 }
        backoff := min (s.backoff * 2) 300 }

/-- Sleep performed at the end of an iteration, in seconds: the refresh
interval after a success (line 241), the current `backoff` after a failure
(line 260; the doubling at line 261 happens only after this sleep). -/
def sleepSeconds (s : PollerState) (refresh : Nat) : FetchResult → Nat
  | .ok _ _ => refresh
  | .fail _ => s.backoff

/-- Run the worker loop over a trace of iteration outcomes. -/
def runWorker (cache : Option CacheRecord) (t : List FetchResult) : PollerState :=
  t.foldl stepWorker (initState cache)

/-- Number of trailing consecutive failures of a trace (counting from the most
recent success, or from the start if no success occurred). -/
def consecFails (t : List FetchResult) : Nat :=
  t.foldl (fun n r => match r with | .ok _ _ => 0 | .fail _ => n + 1) 0

/-- Whether some iteration of the trace succeeded. -/
def anyOk (t : List FetchResult) : Bool :=
  t.any (fun r => match r with | .ok _ _ => true | .fail _ => false)

/-- Whether the trace is non-empty and its most recent iteration succeeded. -/
def lastIsOk (t : List FetchResult) : Bool :=
  t.foldl (fun _ r => match r with | .ok _ _ => true | .fail _ => false) false

/- ### Invariants of the worker loop -/

theorem backoff_runWorker (cache : Option CacheRecord) (t : List FetchResult) :
    (runWorker cache t).backoff = min (5 * 2 ^ consecFails t) 300 := by
  suffices h : ∀ (t : List FetchResult) (s : PollerState) (m : Nat),
      s.backoff = min (5 * 2 ^ m) 300 →
      (t.foldl stepWorker s).backoff =
        min (5 * 2 ^ (t.foldl (fun n r =>
          match r with | .ok _ _ => 0 | .fail _ => n + 1) m)) 300 by
    exact h t (initState cache) 0 (by simp [initState])
  intro t
  induction t with
  | nil => intro s m hm; simpa using hm
  | cons r t ih =>
    intro s m hm
    cases r with
    | ok d now =>
      simpa using ih (stepWorker s (.ok d now)) 0 (by simp [stepWorker])
    | fail e =>
      refine (ih (stepWorker s (.fail e)) (m + 1) ?_).trans (by simp)
      have h2 : (5 : Nat) * 2 ^ (m + 1) = (5 * 2 ^ m) * 2 := by ring
      simp only [stepWorker, hm, h2]
      omega

theorem stale_runWorker (cache : Option CacheRecord) (t : List FetchResult) :
    (runWorker cache t).weather.stale = !lastIsOk t := by
  suffices h : ∀ (t : List FetchResult) (s : PollerState) (b : Bool),
      s.weather.stale = !b →
      (t.foldl stepWorker s).weather.stale =
        !(t.foldl (fun _ r =>
          match r with | .ok _ _ => true | .fail _ => false) b) by
    refine h t (initState cache) false ?_
    cases cache <;> simp [initState, WeatherNow.init, seedFromCache]
  intro t
  induction t with
  | nil => intro s b hb; simpa using hb
  | cons r t ih =>
    intro s b hb
    cases r with
    | ok d now => exact ih _ true (by simp [stepWorker])
    | fail e => exact ih _ false (by simp [stepWorker])

theorem ok_runWorker (cache : Option CacheRecord) (t : List FetchResult) :
    (runWorker cache t).weather.ok = (cache.isSome || anyOk t) := by
  suffices h : ∀ (t : List FetchResult) (s : PollerState),
      (t.foldl stepWorker s).weather.ok = (s.weather.ok || anyOk t) by
    rw [runWorker, h t (initState cache)]
    cases cache <;> simp [initState, WeatherNow.init, seedFromCache]
  intro t
  induction t with
  | nil => intro s; simp [anyOk]
  | cons r t ih =>
    intro s
    rw [List.foldl_cons, ih]
    cases r with
    | ok d now => simp [anyOk, stepWorker]
    | fail e => simp [anyOk, stepWorker, Bool.or_assoc]

/- ### Claim theorems about the worker loop -/

/-- C1: after `k` consecutive fetch failures (`k ≥ 1`, counting from the most
recent success or from the start), the sleep the worker loop performs before
the next attempt equals `min (5 * 2 ^ (k - 1)) 300` seconds (floor 5,
doubling, ceiling 300), and after any successful fetch the sleep before the
attempt following the next failure is back to the floor of 5 seconds. -/
theorem backoff_schedule (cache : Option CacheRecord) (t : List FetchResult)
    (refresh : Nat) (e : String) (d : FetchData) (now : Nat) (k : Nat)
    (_hk : 1 ≤ k) (hcf : consecFails t = k - 1) :
    sleepSeconds (runWorker cache t) refresh (.fail e) =
      min (5 * 2 ^ (k - 1)) 300 ∧
    sleepSeconds (runWorker cache (t ++ [.ok d now])) refresh (.fail e) = 5 := by
  constructor
  · show (runWorker cache t).backoff = _
    rw [backoff_runWorker, hcf]
  · show (runWorker cache (t ++ [.ok d now])).backoff = _
    rw [backoff_runWorker]
    simp [consecFails, List.foldl_append]

/-- Witness for `backoff_schedule`: two consecutive failures from the start,
so the third failure sleeps `min (5 * 2 ^ 2) 300 = 20` seconds, and after an
intervening success the sleep is 5 seconds again. -/
theorem backoff_schedule_witness :
    (1 ≤ 3 ∧ consecFails [FetchResult.fail "a", FetchResult.fail "b"] = 3 - 1) ∧
    sleepSeconds (runWorker none [FetchResult.fail "a", FetchResult.fail "b"]) 900
      (.fail "c") = min (5 * 2 ^ (3 - 1)) 300 ∧
    sleepSeconds (runWorker none ([FetchResult.fail "a", FetchResult.fail "b"] ++
      [FetchResult.ok ⟨"N", "1", "t", "i", "o", "u"⟩ 7])) 900 (.fail "c") = 5 := by
  have h := backoff_schedule none [FetchResult.fail "a", FetchResult.fail "b"] 900 "c"
    ⟨"N", "1", "t", "i", "o", "u"⟩ 7 3 (by decide) (by decide)
  exact ⟨⟨by decide, by decide⟩, h.1, h.2⟩

/-- C2: the published `WeatherNow` has `stale = false` iff the most recent
fetch attempt succeeded (an attempt's result is published the moment the
attempt completes, so while the value reads `stale = false` no new refresh
interval has elapsed unobserved); and any fetch failure publishes
`stale = true` immediately, regardless of how recent the last success was. -/
theorem staleness_law (cache : Option CacheRecord) (t : List FetchResult) :
    ((runWorker cache t).weather.stale = false ↔ lastIsOk t = true) ∧
    (∀ (u : List FetchResult) (e : String),
      (runWorker cache (u ++ [.fail e])).weather.stale = true) := by
  constructor
  · rw [stale_runWorker]; cases lastIsOk t <;> simp
  · intro u e
    rw [stale_runWorker]
    simp [lastIsOk, List.foldl_append]

/-- C5: the published `ok` flag is `true` iff a cache preload happened or some
fetch succeeded, so it stays `false` until the first success (or preload) ever
completes; and every fetch failure leaves `ok` exactly as previously recorded
("last known good" semantics). -/
theorem ok_last_known_good (cache : Option CacheRecord) (t : List FetchResult) :
    ((runWorker cache t).weather.ok = true ↔ (cache.isSome || anyOk t) = true) ∧
    (∀ (s : PollerState) (e : String),
      (stepWorker s (.fail e)).weather.ok = s.weather.ok) := by
  refine ⟨?_, fun s e => rfl⟩
  rw [ok_runWorker]

/-- C6: when the on-disk weather cache holds a persisted record, the value
published at poller start (before any network round-trip) is seeded with
`ok = true`, `stale = true`, `err = "(cache)"` and the persisted field
contents (with `"-"`/`0` defaults for absent keys); in particular a disk-cache
seed is never published with `stale = false`.  Without a cache the dataclass
defaults stand. -/
theorem cache_preload_seed (c : CacheRecord) :
    (initState (some c)).weather.ok = true ∧
    (initState (some c)).weather.stale = true ∧
    (initState (some c)).weather.err = "(cache)" ∧
    (initState (some c)).weather.location_name = c.location_name.getD "-" ∧
    (initState (some c)).weather.temp_c = c.temp_c.getD "-" ∧
    (initState (some c)).weather.text = c.text.getD "-" ∧
    (initState (some c)).weather.icon = c.icon.getD "-" ∧
    (initState (some c)).weather.obs_time = c.obs_time.getD "-" ∧
    (initState (some c)).weather.update_time = c.update_time.getD "-" ∧
    (initState (some c)).weather.last_ok_ts = c.last_ok_ts.getD 0 ∧
    (initState none).weather = WeatherNow.init :=
  ⟨rfl, rfl, rfl, rfl, rfl, rfl, rfl, rfl, rfl, rfl, rfl⟩

/-- C7: on a fetch failure the replacement `WeatherNow` keeps every previous
field (`location_name`, `temp_c`, `text`, `icon`, `obs_time`, `update_time`,
`last_ok_ts`, `ok`) unchanged, and changes only `stale` (set to `true`) and
`err` (set to the failure description truncated to 60 characters). -/
theorem failure_frame (s : PollerState) (e : String) :
    (stepWorker s (.fail e)).weather =
      { s.weather with stale := true, err := e.take 60 } := rfl

/- ### `app/ticker_queue.py`: `TickerItem` and `TickerQueue`

`time.time()` is modelled as a `Nat`.  The `deque` is modelled as a `List`
with index 0 at the front.  Python's `sorted` is a stable sort; it is embedded
as `List.mergeSort`, which is also stable. -/

structure TickerItem where
  text : String
  expire : Nat
  priority : Int
  deriving Repr, DecidableEq

/-- Constructor `TickerItem(text, ttl, priority)`: `self.expire = time.time()
+ ttl`, with `now` the value of `time.time()` at push time. -/
def TickerItem.make (now : Nat) (text : String) (ttl : Nat) (priority : Int) :
    TickerItem :=
  { text := text, expire := now + ttl, priority := priority }

/-- Comparison used by `sorted(self.q, key=lambda x: x.priority)`: items are
ordered by comparing their priority keys with `≤`. -/
def leP (a b : TickerItem) : Bool :=
  decide (a.priority ≤ b.priority)

/-- Method `TickerQueue.push`: append the item, then rebuild the deque as a full
stable sort by priority. -/
def TickerQueue.push (q : List TickerItem) (item : TickerItem) :
    List TickerItem :=
  (q ++ [item]).mergeSort leP

/-- Method `TickerQueue.next_text`: lazily evict every item with `expire ≤ now`
(the filter keeps items with `i.expire > now`), then return the front item's
text, or the empty string if nothing is left.  Returns the new deque as well,
since the method reassigns `self.q`. -/
def TickerQueue.next_text (now : Nat) (q : List TickerItem) :
    String × List TickerItem :=
  match q.filter (fun i => decide (now < i.expire)) with
  | [] => ("", [])
  | i :: rest => (i.text, i :: rest)

/-- The queue obtained by pushing `items` in order into an empty queue. -/
def TickerQueue.pushAll (items : List TickerItem) : List TickerItem :=
  items.foldl TickerQueue.push []

/- ### Claim theorem C3 -/

/-- C3: `next_text` never returns the text of an expired item: its result is
either the empty string or the text of a queued item with `now < expire`;
when the queue is empty or every queued item is expired it returns the empty
string; and an item's expiry was fixed at push time as `now + ttl`. -/
theorem next_text_no_expired (q : List TickerItem) (now : Nat) :
    ((TickerQueue.next_text now q).1 = "" ∨
      ∃ i ∈ q, now < i.expire ∧ (TickerQueue.next_text now q).1 = i.text) ∧
    ((∀ i ∈ q, i.expire ≤ now) → (TickerQueue.next_text now q).1 = "") ∧
    (∀ (n ttl : Nat) (text : String) (p : Int),
      (TickerItem.make n text ttl p).expire = n + ttl) := by
  refine ⟨?_, ?_, fun _ _ _ _ => rfl⟩
  · rcases h : q.filter (fun i => decide (now < i.expire)) with - | ⟨i, rest⟩
    · exact Or.inl (by simp [TickerQueue.next_text, h])
    · refine Or.inr ⟨i, ?_, ?_, by simp [TickerQueue.next_text, h]⟩
      · have : i ∈ q.filter (fun i => decide (now < i.expire)) := by
          rw [h]; exact List.mem_cons_self i rest
        exact (List.mem_filter.mp this).1
      · have : i ∈ q.filter (fun i => decide (now < i.expire)) := by
          rw [h]; exact List.mem_cons_self i rest
        simpa using (List.mem_filter.mp this).2
  · intro hall
    have h : q.filter (fun i => decide (now < i.expire)) = [] := by
      rw [List.filter_eq_nil_iff]
      intro i hi
      simpa using Nat.not_lt.mpr (hall i hi)
    simp [TickerQueue.next_text, h]

/-- Witness for `next_text_no_expired`: a queue whose only item expired at
time 5 yields the empty string at time 5. -/
theorem next_text_no_expired_witness :
    (∀ i ∈ [TickerItem.make 0 "old" 5 1], i.expire ≤ 5) ∧
    (TickerQueue.next_text 5 [TickerItem.make 0 "old" 5 1]).1 = "" := by
  refine ⟨by decide, ?_⟩
  exact (next_text_no_expired [TickerItem.make 0 "old" 5 1] 5).2.1 (by decide)

/- ### Stable-sort facts about `TickerQueue.push` -/

theorem leP_trans : ∀ (a b c : TickerItem), leP a b → leP b c → leP a c := by
  intro a b c hab hbc
  simp only [leP, decide_eq_true_eq] at *
  omega

theorem leP_total : ∀ (a b : TickerItem), leP a b || leP b a := by
  intro a b
  simp only [leP]
  rcases le_total a.priority b.priority with h | h <;> simp [h]

/-- One stable sort leaves each priority class (as a subsequence) untouched. -/
theorem filter_priority_mergeSort (l : List TickerItem) (p : Int) :
    (l.mergeSort leP).filter (fun i => decide (i.priority = p)) =
      l.filter (fun i => decide (i.priority = p)) := by
  set pr : TickerItem → Bool := fun i => decide (i.priority = p) with hpr
  have hpw : (l.filter pr).Pairwise (leP · ·) := by
    refine List.pairwise_of_forall_mem_list ?_
    intro a ha b hb
    have ha' := (List.mem_filter.mp ha).2
    have hb' := (List.mem_filter.mp hb).2
    simp only [hpr, decide_eq_true_eq] at ha' hb'
    simp [leP, ha', hb']
  have h3 : List.Sublist (l.filter pr) (l.mergeSort leP) :=
    List.sublist_mergeSort leP_trans leP_total hpw (List.filter_sublist l)
  have h5 : List.Sublist (l.filter pr) ((l.mergeSort leP).filter pr) := by
    have := h3.filter pr
    rwa [List.filter_filter, show (fun a => pr a && pr a) = pr by
      funext a; exact Bool.and_self (pr a)] at this
  have h6 : ((l.mergeSort leP).filter pr).length = (l.filter pr).length :=
    ((List.mergeSort_perm l leP).filter pr).length_eq
  exact (h5.eq_of_length h6.symm).symm

theorem filter_comm' (p q : TickerItem → Bool) (l : List TickerItem) :
    (l.filter p).filter q = (l.filter q).filter p := by
  simp only [List.filter_filter]
  congr 1
  funext a
  exact Bool.and_comm (q a) (p a)

theorem pushAll_perm (items : List TickerItem) :
    (TickerQueue.pushAll items).Perm items := by
  induction items using List.reverseRecOn with
  | nil => rfl
  | append_singleton l x ih =>
    have h1 : TickerQueue.pushAll (l ++ [x]) =
        ((TickerQueue.pushAll l) ++ [x]).mergeSort leP := by
      simp [TickerQueue.pushAll, TickerQueue.push, List.foldl_append]
    rw [h1]
    exact (List.mergeSort_perm _ leP).trans (ih.append_right [x])

theorem pushAll_sorted (items : List TickerItem) :
    (TickerQueue.pushAll items).Pairwise (leP · ·) := by
  induction items using List.reverseRecOn with
  | nil => exact List.Pairwise.nil
  | append_singleton l x ih =>
    have h1 : TickerQueue.pushAll (l ++ [x]) =
        ((TickerQueue.pushAll l) ++ [x]).mergeSort leP := by
      simp [TickerQueue.pushAll, TickerQueue.push, List.foldl_append]
    rw [h1]
    exact List.sorted_mergeSort leP_trans leP_total _

theorem pushAll_classes (items : List TickerItem) (p : Int) :
    (TickerQueue.pushAll items).filter (fun i => decide (i.priority = p)) =
      items.filter (fun i => decide (i.priority = p)) := by
  induction items using List.reverseRecOn with
  | nil => rfl
  | append_singleton l x ih =>
    have h1 : TickerQueue.pushAll (l ++ [x]) =
        ((TickerQueue.pushAll l) ++ [x]).mergeSort leP := by
      simp [TickerQueue.pushAll, TickerQueue.push, List.foldl_append]
    rw [h1, filter_priority_mergeSort, List.filter_append, ih,
      ← List.filter_append]

/- ### Spec-side selection function for the ticker (refinement reference)

These two definitions follow the spec's words, not the code: "first, drop all
items with `expires_at <= now`; among the remainder, return the text of the
item with the numerically lowest `priority`; if multiple share the lowest
priority, return the one inserted first (stable ordering); if the collection
is empty, return empty string". -/

def minPriority : List TickerItem → Option Int
  | [] => none
  | i :: is =>
    match minPriority is with
    | none => some i.priority
    | some m => some (min i.priority m)

def specCurrent (now : Nat) (items : List TickerItem) : String :=
  let live := items.filter (fun i => decide (now < i.expire))
  match minPriority live with
  | none => ""
  | some p =>
    match live.filter (fun i => decide (i.priority = p)) with
    | [] => ""
    | j :: _ => j.text

theorem minPriority_eq_none {l : List TickerItem} :
    minPriority l = none ↔ l = [] := by
  cases l with
  | nil => simp [minPriority]
  | cons i is => cases h : minPriority is <;> simp [minPriority, h]

theorem minPriority_le {l : List TickerItem} {p : Int}
    (h : minPriority l = some p) : ∀ i ∈ l, p ≤ i.priority := by
  induction l generalizing p with
  | nil => simp [minPriority] at h
  | cons a l ih =>
    intro i hi
    cases hm : minPriority l with
    | none =>
      rw [minPriority_eq_none.mp hm] at hi
      simp only [minPriority, hm] at h
      obtain rfl := Option.some.inj h
      rcases List.mem_singleton.mp hi with rfl
      exact le_refl _
    | some m =>
      simp only [minPriority, hm] at h
      obtain rfl := Option.some.inj h
      rcases List.mem_cons.mp hi with rfl | hi'
      · exact min_le_left _ _
      · exact le_trans (min_le_right _ _) (ih hm i hi')

theorem minPriority_mem {l : List TickerItem} {p : Int}
    (h : minPriority l = some p) : ∃ i ∈ l, i.priority = p := by
  induction l generalizing p with
  | nil => simp [minPriority] at h
  | cons a l ih =>
    cases hm : minPriority l with
    | none =>
      simp only [minPriority, hm] at h
      exact ⟨a, List.mem_cons_self a l, Option.some.inj h⟩
    | some m =>
      simp only [minPriority, hm] at h
      obtain rfl := Option.some.inj h
      rcases le_total a.priority m with hle | hle
      · exact ⟨a, List.mem_cons_self a l, (min_eq_left hle).symm ▸ rfl⟩
      · obtain ⟨i, hi, hip⟩ := ih hm
        exact ⟨i, List.mem_cons_of_mem a hi, by rw [hip, min_eq_right hle]⟩

/-- Key characterization: after any sequence of pushes, `next_text` selects
exactly what the spec's words say. -/
theorem next_text_pushAll (items : List TickerItem) (now : Nat) :
    (TickerQueue.next_text now (TickerQueue.pushAll items)).1 =
      specCurrent now items := by
  set prL : TickerItem → Bool := fun i => decide (now < i.expire) with hprL
  set Lq := (TickerQueue.pushAll items).filter prL with hLq
  set Li := items.filter prL with hLi
  have hperm : Lq.Perm Li := (pushAll_perm items).filter prL
  have hclass : ∀ p : Int,
      Lq.filter (fun i => decide (i.priority = p)) =
        Li.filter (fun i => decide (i.priority = p)) := by
    intro p
    rw [hLq, hLi, filter_comm', pushAll_classes, ← filter_comm']
  rw [TickerQueue.next_text, specCurrent]
  cases hq : Lq with
  | nil =>
    have hLi0 : Li = [] := by
      have hperm' : List.Perm [] Li := hq ▸ hperm
      exact hperm'.symm.eq_nil
    rw [← hLq, hq, ← hLi, hLi0]
    simp [minPriority]
  | cons h rest =>
    have hsorted : Lq.Pairwise (leP · ·) := (pushAll_sorted items).filter prL
    have hLi_ne : Li ≠ [] := by
      intro h0
      rw [h0] at hperm
      exact (List.cons_ne_nil h rest) (hq ▸ hperm.eq_nil)
    obtain ⟨p, hp⟩ : ∃ p, minPriority Li = some p := by
      cases hmp : minPriority Li with
      | none => exact absurd (minPriority_eq_none.mp hmp) hLi_ne
      | some p => exact ⟨p, rfl⟩
    have hmem_h : h ∈ Li := hperm.mem_iff.mp (hq ▸ List.mem_cons_self h rest)
    have hple : p ≤ h.priority := minPriority_le hp h hmem_h
    obtain ⟨j, hj, hjp⟩ := minPriority_mem hp
    have hjq : j ∈ Lq := hperm.symm.mem_iff.mp hj
    have hhj : h.priority ≤ j.priority := by
      rw [hq] at hjq hsorted
      rcases List.mem_cons.mp hjq with rfl | hj'
      · exact le_refl _
      · have := (List.pairwise_cons.mp hsorted).1 j hj'
        simpa [leP] using this
    have hhp : h.priority = p := le_antisymm (hjp ▸ hhj) hple
    have hfilter : Li.filter (fun i => decide (i.priority = p)) =
        h :: rest.filter (fun i => decide (i.priority = p)) := by
      rw [← hclass p, hq, List.filter_cons_of_pos (by simp [hhp])]
    rw [← hLq, hq, ← hLi, hp]
    show h.text = match Li.filter (fun i => decide (i.priority = p)) with
      | [] => ""
      | j :: _ => j.text
    rw [hfilter]

/-- C4: for every sequence of `push` calls and every call time, `next_text`
returns the text of the non-expired item with the numerically lowest
priority, with ties among equal priorities broken by insertion order (the
full re-sort on each `push` is stable); in particular pushing A (priority 5),
then B (priority 5), then C (priority 1) yields C's text, and once C is
expired yields A's text. -/
theorem next_text_lowest_priority :
    (∀ (items : List TickerItem) (now : Nat),
      (TickerQueue.next_text now (TickerQueue.pushAll items)).1 =
        specCurrent now items) ∧
    (TickerQueue.next_text 1 (TickerQueue.pushAll
      [TickerItem.make 0 "A" 100 5, TickerItem.make 0 "B" 100 5,
       TickerItem.make 0 "C" 10 1])).1 = "C" ∧
    (TickerQueue.next_text 11 (TickerQueue.pushAll
      [TickerItem.make 0 "A" 100 5, TickerItem.make 0 "B" 100 5,
       TickerItem.make 0 "C" 10 1])).1 = "A" := by
  refine ⟨next_text_pushAll, ?_, ?_⟩
  · exact (next_text_pushAll _ 1).trans (by decide)
  · exact (next_text_pushAll _ 11).trans (by decide)

/- ### `_load_json` / `_save_json` (`weather_service.py` lines 65-80;
`load_json` / `save_json` in `app/main.py` are character-for-character the
same)

The filesystem is an association list from paths to file data; the outcome of
the effectful part of `_save_json` (where, if anywhere, an exception is
raised) is passed explicitly, since the Python code swallows it either way. -/

/-- Data stored at a path: either bytes that parse as a JSON object (a flat
string map is enough for the cache records used here), or bytes that
`json.load` rejects (corrupt, truncated, or unreadable content). -/
inductive FileData where
  | jsonDict (d : List (String × String))
  | invalid (raw : String)
  deriving Repr, DecidableEq

abbrev Fs := List (String × FileData)

def lookupFile : Fs → String → Option FileData
  | [], _ => none
  | (k, v) :: fs, path => if path == k then some v else lookupFile fs path

def setFile (fs : Fs) (path : String) (data : FileData) : Fs :=
  (path, data) :: fs

def removeFile (fs : Fs) (path : String) : Fs :=
  fs.filter (fun e => !(e.1 == path))

/-- Function `_load_json`: `open`, read and `json.load` under `try`; any exception
(missing or unreadable file, corrupt JSON) yields the empty record `{}`. -/
def load_json (fs : Fs) (path : String) : List (String × String) :=
  match lookupFile fs path with
  | some (.jsonDict d) => d
  | some (.invalid _) => []
  | none => []

/-- Where, if anywhere, the `try` body of `_save_json` raises. -/
inductive SaveOutcome where
  | ok
  | failWrite (raw : String)
  | failReplace
  deriving Repr, DecidableEq

/-- Function `_save_json`: write `path + ".tmp"` then `os.replace(tmp, path)`, the
whole body under `try ... except: pass`.  `failWrite raw` models an exception
while opening or writing the temp file (leaving at most a partial temp file);
`failReplace` models `os.replace` itself raising; `ok` models the successful
path, where the rename atomically installs the full new content and removes
the temp file.  Every outcome returns a filesystem: nothing is raised. -/
def save_json (o : SaveOutcome) (fs : Fs) (path : String)
    (d : List (String × String)) : Fs :=
  match o with
  | .failWrite raw => setFile fs (path ++ ".tmp") (.invalid raw)
  | .failReplace => setFile fs (path ++ ".tmp") (.jsonDict d)
  | .ok =>
      removeFile (setFile (setFile fs (path ++ ".tmp") (.jsonDict d))
        path (.jsonDict d)) (path ++ ".tmp")

theorem lookupFile_cons (k : String) (v : FileData) (fs : Fs) (q : String) :
    lookupFile ((k, v) :: fs) q = if q == k then some v else lookupFile fs q :=
  rfl

theorem lookupFile_set_self (fs : Fs) (p : String) (dta : FileData) :
    lookupFile (setFile fs p dta) p = some dta := by
  simp [setFile, lookupFile_cons]

theorem lookupFile_set_ne (fs : Fs) (p q : String) (dta : FileData)
    (h : q ≠ p) : lookupFile (setFile fs p dta) q = lookupFile fs q := by
  have hb : (q == p) = false := beq_eq_false_iff_ne.mpr h
  simp [setFile, lookupFile_cons, hb]

theorem lookupFile_remove_ne (fs : Fs) (p q : String) (h : q ≠ p) :
    lookupFile (removeFile fs p) q = lookupFile fs q := by
  have hb : (q == p) = false := beq_eq_false_iff_ne.mpr h
  induction fs with
  | nil => rfl
  | cons e fs ih =>
    rcases e with ⟨k, v⟩
    rw [removeFile, List.filter_cons]
    by_cases hk : k = p
    · subst hk
      rw [if_neg (by simp)]
      rw [show List.filter (fun e => !(e.1 == k)) fs = removeFile fs k from rfl]
      rw [ih, lookupFile_cons, if_neg (by simp [hb])]
    · have hkb : (!(k == p)) = true := by
        simp [beq_eq_false_iff_ne.mpr hk]
      simp only [hkb, if_true]
      rw [show List.filter (fun e => !(e.1 == p)) fs = removeFile fs p from rfl]
      rw [lookupFile_cons, lookupFile_cons, ih]

theorem path_ne_tmp (path : String) : path ≠ path ++ ".tmp" := by
  intro h
  have hlen := congrArg String.length h
  rw [String.length_append] at hlen
  have h4 : ".tmp".length = 4 := rfl
  omega

/-- C8: the disk-cache layer is total.  `_save_json` returns on every
outcome (failures are swallowed), and the cache file afterwards holds either
its previous content or the complete new record — a partial write can only
ever sit at the `.tmp` path, and the successful path installs the new record
atomically.  `_load_json` yields the empty record `{}` on a missing file and
on a corrupt/unreadable one, so no disk-cache problem becomes a fetch or
startup failure. -/
theorem disk_cache_total (fs : Fs) (path : String)
    (d : List (String × String)) (o : SaveOutcome) :
    (lookupFile fs path = none → load_json fs path = []) ∧
    (∀ raw, lookupFile fs path = some (.invalid raw) → load_json fs path = []) ∧
    (lookupFile (save_json o fs path d) path = lookupFile fs path ∨
      lookupFile (save_json o fs path d) path = some (.jsonDict d)) ∧
    lookupFile (save_json .ok fs path d) path = some (.jsonDict d) := by
  have hok : lookupFile (save_json .ok fs path d) path = some (.jsonDict d) := by
    show lookupFile (removeFile _ (path ++ ".tmp")) path = _
    rw [lookupFile_remove_ne _ _ _ (path_ne_tmp path), lookupFile_set_self]
  refine ⟨?_, ?_, ?_, hok⟩
  · intro h; simp [load_json, h]
  · intro raw h; simp [load_json, h]
  · cases o with
    | failWrite raw =>
      exact Or.inl (lookupFile_set_ne _ _ _ _ (path_ne_tmp path))
    | failReplace =>
      exact Or.inl (lookupFile_set_ne _ _ _ _ (path_ne_tmp path))
    | ok => exact Or.inr hok

/-- Witness for `disk_cache_total`: loading a missing file and a corrupt file
both give `{}`, and a failed save leaves the previously saved record alone. -/
theorem disk_cache_total_witness :
    load_json [] "weather_now.json" = [] ∧
    load_json [("weather_now.json", .invalid "garbage")] "weather_now.json" = [] ∧
    lookupFile (save_json (.failWrite "par") [("weather_now.json",
      .jsonDict [("temp_c", "21")])] "weather_now.json" [("temp_c", "25")])
      "weather_now.json" = some (.jsonDict [("temp_c", "21")]) := by
  refine ⟨(disk_cache_total [] "weather_now.json" [] .ok).1 rfl,
    (disk_cache_total [("weather_now.json", .invalid "garbage")]
      "weather_now.json" [] .ok).2.1 "garbage" rfl, ?_⟩
  have h := (disk_cache_total [("weather_now.json", .jsonDict [("temp_c", "21")])]
    "weather_now.json" [("temp_c", "25")] (.failWrite "par")).2.2.1
  rcases h with h | h
  · rw [h]; rfl
  · exact absurd h (by decide)

/- ### `WeatherService._sleep_or_stop` vs. the `app/main.py` workers

Time is modelled in ticks of 0.5 s.  `_sleep_or_stop` computes
`end = time.monotonic() + seconds` and then, while the stop event is unset
and the deadline is not reached, performs `time.sleep(0.5)`; `stopped t`
tells whether the stop event is set at tick `t`.  Each performed sleep is
recorded as a pair (start tick, duration in ticks). -/

def sleepOrStopSlices (stopped : Nat → Bool) (endT : Nat) (now : Nat) :
    List (Nat × Nat) :=
  if h : stopped now = false ∧ now < endT then
    (now, 1) :: sleepOrStopSlices stopped endT (now + 1)
  else
    []
termination_by endT - now
decreasing_by omega

/-- Worker `network_worker` in `app/main.py` ends each iteration with a single
`time.sleep(cfg["refresh_seconds"])` and checks `_stop` only between
iterations: one sleep slice spanning the whole refresh interval.
(`weather_worker` in the same file sleeps its refresh interval and its
backoff the same way.) -/
def networkWorkerSleepSlices (startTick : Nat) (refreshTicks : Nat) :
    List (Nat × Nat) :=
  [(startTick, refreshTicks)]

/-- C9 counterexample: with `refresh_seconds = 30` (60 ticks of 0.5 s), the
sleep `network_worker` performs between iterations is one uninterruptible
slice of 60 ticks, so the claim that every poller's sleep proceeds in slices
of at most 0.5 s with the stop flag checked between slices is false for the
`app/main.py` workers. -/
theorem network_worker_sleep_not_sliced :
    ¬ (∀ s ∈ networkWorkerSleepSlices 0 60, s.2 ≤ 1) := by
  decide

/-- C9 (amended to `WeatherService`): `_sleep_or_stop` sleeps in slices of
exactly one tick (0.5 s) and re-checks the stop flag before every slice: no
slice starts at a tick where the stop flag is set, so once stop is set the
poller leaves its sleep within the 0.5 s slice bound rather than after the
full interval. -/
theorem sleep_or_stop_sliced (stopped : Nat → Bool) (endT now : Nat) :
    (∀ s ∈ sleepOrStopSlices stopped endT now, s.2 = 1) ∧
    (∀ s ∈ sleepOrStopSlices stopped endT now, stopped s.1 = false) ∧
    (stopped now = true → sleepOrStopSlices stopped endT now = []) := by
  suffices h : ∀ (fuel n : Nat), endT - n ≤ fuel →
      (∀ s ∈ sleepOrStopSlices stopped endT n, s.2 = 1) ∧
      (∀ s ∈ sleepOrStopSlices stopped endT n, stopped s.1 = false) ∧
      (stopped n = true → sleepOrStopSlices stopped endT n = []) by
    exact h (endT - now) now le_rfl
  intro fuel
  induction fuel with
  | zero =>
    intro n hn
    have hcond : ¬ (stopped n = false ∧ n < endT) := by omega
    rw [sleepOrStopSlices, dif_neg hcond]
    exact ⟨by simp, by simp, fun _ => rfl⟩
  | succ fuel ih =>
    intro n hn
    by_cases hcond : stopped n = false ∧ n < endT
    · rw [sleepOrStopSlices, dif_pos hcond]
      have hrec := ih (n + 1) (by omega)
      refine ⟨?_, ?_, fun hstop => absurd hstop (by simp [hcond.1])⟩
      · intro s hs
        rcases List.mem_cons.mp hs with rfl | hs'
        · rfl
        · exact hrec.1 s hs'
      · intro s hs
        rcases List.mem_cons.mp hs with rfl | hs'
        · exact hcond.1
        · exact hrec.2.1 s hs'
    · rw [sleepOrStopSlices, dif_neg hcond]
      exact ⟨by simp, by simp, fun _ => rfl⟩

/-- Witness for `sleep_or_stop_sliced`: with the stop event set from tick 2
on, the sleep performs no slice at tick 2, and the slice the unstopped sleep
performs at tick 0 lasts exactly one tick (0.5 s). -/
theorem sleep_or_stop_sliced_witness :
    ((fun t : Nat => decide (2 ≤ t)) 2 = true ∧
      sleepOrStopSlices (fun t => decide (2 ≤ t)) 10 2 = []) ∧
    ((0, 1) ∈ sleepOrStopSlices (fun _ => false) 2 0 ∧
      ((0, 1) : Nat × Nat).2 = 1) := by
  have hm : (0, 1) ∈ sleepOrStopSlices (fun _ => false) 2 0 := by
    rw [sleepOrStopSlices, dif_pos (by simp)]
    exact List.mem_cons_self _ _
  exact ⟨⟨by decide, (sleep_or_stop_sliced (fun t => decide (2 ≤ t)) 10 2).2.2
    (by decide)⟩, hm, (sleep_or_stop_sliced (fun _ => false) 2 0).1 (0, 1) hm⟩

/- ### `app/collectors/shwg.py`: `fetch_quote` and `fetch_lunar`

`requests.get` + `raise_for_status` + `r.json()` are modelled by one explicit
outcome: an exception (timeout, connection refused, HTTP error status, JSON
decode error, ...) carried as a string, or the parsed JSON document. -/

inductive JVal where
  | jnull
  | jbool (b : Bool)
  | jnum (n : Int)
  | jstr (s : String)
  | jarr (elems : List JVal)
  | jobj (fields : List (String × JVal))

/-- Python `str()` of a JSON value.  Only the string case can be empty; for
containers Python prints a bracketed, never-empty representation, modelled
here by a fixed placeholder. -/
def pyStr : JVal → String
  | .jnull => "None"
  | .jbool b => if b then "True" else "False"
  | .jnum n => toString n
  | .jstr s => s
  | .jarr _ => "[...]"
  | .jobj _ => "\x7b...\x7d"

/-- Whitespace stripped by Python's `str.strip()`. -/
def isPySpace (c : Char) : Bool :=
  c == ' ' || c == '\t' || c == '\n' || c == '\r' || c == '\x0b' || c == '\x0c'

/-- Python `str.strip()` on the character list: drop leading and trailing
whitespace. -/
def pstripList (l : List Char) : List Char :=
  ((l.dropWhile isPySpace).reverse.dropWhile isPySpace).reverse

/-- Python `str.strip()`. -/
def pstrip (s : String) : String :=
  { data := pstripList s.data }

/-- The `LunarInfo` dataclass of `app/models.py`. -/
structure LunarInfo where
  solar : String
  lunar : String
  week : String
  ganzhi_year : String
  ganzhi_month : String
  ganzhi_day : String
  constellation : String
  yi : String
  ji : String
  deriving Repr, DecidableEq

/-- Python's `data.get("code") != 200` guard: it passes exactly when the
`code` field is present and is the number 200. -/
def codeIs200 (fields : List (String × JVal)) : Bool :=
  match fields.lookup "code" with
  | some (.jnum n) => n == 200
  | _ => false

/-- Tail of `fetch_quote`: `if text and cn: return f"{text} {cn}".strip()`
followed by `return text or cn or None` (an empty Python string is falsy). -/
def quoteCombine (text cn : String) : Option String :=
  if text ≠ "" ∧ cn ≠ "" then some (pstrip (text ++ " " ++ cn))
  else if text ≠ "" then some text
  else if cn ≠ "" then some cn
  else none

/-- The `text`/`cn` extraction of `fetch_quote` once `payload` is known to be a
dict: `str(payload.get("text", "")).strip()` and the same for `"cn"`. -/
def quoteFromPayload (pf : List (String × JVal)) : Option String :=
  quoteCombine (pstrip (pyStr ((pf.lookup "text").getD (.jstr ""))))
    (pstrip (pyStr ((pf.lookup "cn").getD (.jstr ""))))

/-- Function `fetch_quote(key, ...)`: `None` for an empty key (no request is even
attempted), `None` on any exception in the `try` block (transport error,
HTTP error status, JSON decode error, or attribute errors from `.get` on a
non-dict), `None` when the `code` field is not the number 200, and otherwise
the quote text assembled from the payload. -/
def fetch_quote (key : String) (response : Except String JVal) : Option String :=
  if key = "" then none
  else
    match response with
    | .error _ => none
    | .ok (.jobj fields) =>
      if codeIs200 fields then
        match (fields.lookup "data").getD (.jobj []) with
        | .jobj pf => quoteFromPayload pf
        | _ => none
      else none
    | .ok _ => none

/-- Function `fetch_lunar(key, ...)`: same guard structure as `fetch_quote`; on
success every `LunarInfo` field is `str(payload.get(Key, "-"))`. -/
def fetch_lunar (key : String) (response : Except String JVal) :
    Option LunarInfo :=
  if key = "" then none
  else
    match response with
    | .error _ => none
    | .ok (.jobj fields) =>
      if codeIs200 fields then
        match (fields.lookup "data").getD (.jobj []) with
        | .jobj pf =>
          some
            { solar := pyStr ((pf.lookup "Solar").getD (.jstr "-"))
              lunar := pyStr ((pf.lookup "Lunar").getD (.jstr "-"))
              week := pyStr ((pf.lookup "Week").getD (.jstr "-"))
              ganzhi_year := pyStr ((pf.lookup "GanZhiYear").getD (.jstr "-"))
              ganzhi_month := pyStr ((pf.lookup "GanZhiMonth").getD (.jstr "-"))
              ganzhi_day := pyStr ((pf.lookup "GanZhiDay").getD (.jstr "-"))
              constellation :=
                pyStr ((pf.lookup "Constellation").getD (.jstr "-"))
              yi := pyStr ((pf.lookup "YiDay").getD (.jstr "-"))
              ji := pyStr ((pf.lookup "JiDay").getD (.jstr "-")) }
        | _ => none
      else none
    | .ok _ => none

/- ### Facts about `str.strip()` -/

theorem string_eq_empty_iff (s : String) : s = "" ↔ s.data = [] :=
  ⟨fun h => h ▸ rfl, fun h => String.ext (h.trans rfl)⟩

theorem pstripList_eq_nil_iff (l : List Char) :
    pstripList l = [] ↔ ∀ c ∈ l, isPySpace c = true := by
  unfold pstripList
  rw [List.reverse_eq_nil_iff, List.dropWhile_eq_nil_iff]
  constructor
  · intro h c hc
    have hsplit : c ∈ l.takeWhile isPySpace ∨ c ∈ l.dropWhile isPySpace := by
      rw [← List.mem_append, List.takeWhile_append_dropWhile]
      exact hc
    rcases hsplit with h1 | h1
    · exact List.mem_takeWhile_imp h1
    · exact h c (List.mem_reverse.mpr h1)
  · intro h c hc
    have h1 : c ∈ l.dropWhile isPySpace := List.mem_reverse.mp hc
    exact h c (List.dropWhile_subset isPySpace h1)

theorem mem_pstripList_of_not_space {c : Char} {l : List Char}
    (hc : c ∈ l) (hns : isPySpace c = false) : c ∈ pstripList l := by
  have step : ∀ (m : List Char), c ∈ m → c ∈ m.dropWhile isPySpace := by
    intro m hm
    have hsplit : c ∈ m.takeWhile isPySpace ∨ c ∈ m.dropWhile isPySpace := by
      rw [← List.mem_append, List.takeWhile_append_dropWhile]
      exact hm
    rcases hsplit with h1 | h1
    · have h2 : isPySpace c = true := List.mem_takeWhile_imp h1
      rw [hns] at h2
      exact absurd h2 (by simp)
    · exact h1
  unfold pstripList
  rw [List.mem_reverse]
  exact step _ (List.mem_reverse.mpr (step _ hc))

/-- Stripping a string that begins with an already-stripped non-empty string
gives a non-empty string. -/
theorem pstrip_glued_ne_empty (x y z : String) (hx : pstrip x ≠ "") :
    pstrip ((pstrip x ++ y) ++ z) ≠ "" := by
  intro h0
  have hdata : pstripList (((pstrip x).data ++ y.data) ++ z.data) = [] := by
    have h1 := (string_eq_empty_iff _).mp h0
    simpa [pstrip, String.data_append] using h1
  have hall := (pstripList_eq_nil_iff _).mp hdata
  have hx' : pstripList x.data ≠ [] := by
    intro hh
    exact hx ((string_eq_empty_iff _).mpr hh)
  obtain ⟨c, hcl, hcs⟩ : ∃ c ∈ x.data, isPySpace c = false := by
    by_contra hno
    push_neg at hno
    refine hx' ((pstripList_eq_nil_iff _).mpr (fun c hc => ?_))
    simpa using hno c hc
  have hcmem : c ∈ pstripList x.data := mem_pstripList_of_not_space hcl hcs
  have hfin : isPySpace c = true :=
    hall c (List.mem_append.mpr (Or.inl (List.mem_append.mpr (Or.inl hcmem))))
  rw [hcs] at hfin
  exact absurd hfin (by simp)

theorem quoteCombine_ne_empty (x y : String) :
    quoteCombine (pstrip x) (pstrip y) = none ∨
      ∃ s, quoteCombine (pstrip x) (pstrip y) = some s ∧ s ≠ "" := by
  unfold quoteCombine
  by_cases h1 : pstrip x ≠ "" ∧ pstrip y ≠ ""
  · rw [if_pos h1]
    exact Or.inr ⟨_, rfl, pstrip_glued_ne_empty x " " (pstrip y) h1.1⟩
  · rw [if_neg h1]
    by_cases h2 : pstrip x ≠ ""
    · rw [if_pos h2]
      exact Or.inr ⟨_, rfl, h2⟩
    · rw [if_neg h2]
      by_cases h3 : pstrip y ≠ ""
      · rw [if_pos h3]
        exact Or.inr ⟨_, rfl, h3⟩
      · rw [if_neg h3]
        exact Or.inl rfl

theorem quoteFromPayload_ne_empty (pf : List (String × JVal)) :
    quoteFromPayload pf = none ∨
      ∃ s, quoteFromPayload pf = some s ∧ s ≠ "" :=
  quoteCombine_ne_empty _ _

theorem fetch_quote_cases (key : String) (response : Except String JVal) :
    fetch_quote key response = none ∨
      ∃ pf, fetch_quote key response = quoteFromPayload pf := by
  unfold fetch_quote
  by_cases hkey : key = ""
  · rw [if_pos hkey]
    exact Or.inl rfl
  · rw [if_neg hkey]
    cases response with
    | error e => exact Or.inl rfl
    | ok data =>
      cases data with
      | jobj fields =>
        cases hcode : codeIs200 fields with
        | false => simp [hcode]
        | true =>
          simp only [hcode, if_true]
          cases hpay : (fields.lookup "data").getD (.jobj []) with
          | jobj pf => exact Or.inr ⟨pf, rfl⟩
          | jnull => exact Or.inl rfl
          | jbool b => exact Or.inl rfl
          | jnum n => exact Or.inl rfl
          | jstr s => exact Or.inl rfl
          | jarr el => exact Or.inl rfl
      | jnull => exact Or.inl rfl
      | jbool b => exact Or.inl rfl
      | jnum n => exact Or.inl rfl
      | jstr s => exact Or.inl rfl
      | jarr el => exact Or.inl rfl

/-- C10: the collectors never raise (both are total functions of the request
outcome): they return `none` when the API key is empty (without any request),
on any exception of the `try` block (transport failure, timeout, HTTP error
status, bad JSON), and when the `code` field is not the number 200; every
string `fetch_quote` does return is non-empty; and on a `code = 200` response
with a dict payload `fetch_lunar` returns a `LunarInfo` with all nine fields
populated from the payload (default `"-"`). -/
theorem collectors_total (key : String) (response : Except String JVal) :
    (fetch_quote key response = none ∨
      ∃ s, fetch_quote key response = some s ∧ s ≠ "") ∧
    (key = "" →
      fetch_quote key response = none ∧ fetch_lunar key response = none) ∧
    (∀ e, response = .error e →
      fetch_quote key response = none ∧ fetch_lunar key response = none) ∧
    (∀ fields, response = .ok (.jobj fields) → codeIs200 fields = false →
      fetch_quote key response = none ∧ fetch_lunar key response = none) ∧
    (∀ fields pf, response = .ok (.jobj fields) → key ≠ "" →
      codeIs200 fields = true →
      (fields.lookup "data").getD (.jobj []) = .jobj pf →
      fetch_lunar key response = some
        { solar := pyStr ((pf.lookup "Solar").getD (.jstr "-"))
          lunar := pyStr ((pf.lookup "Lunar").getD (.jstr "-"))
          week := pyStr ((pf.lookup "Week").getD (.jstr "-"))
          ganzhi_year := pyStr ((pf.lookup "GanZhiYear").getD (.jstr "-"))
          ganzhi_month := pyStr ((pf.lookup "GanZhiMonth").getD (.jstr "-"))
          ganzhi_day := pyStr ((pf.lookup "GanZhiDay").getD (.jstr "-"))
          constellation := pyStr ((pf.lookup "Constellation").getD (.jstr "-"))
          yi := pyStr ((pf.lookup "YiDay").getD (.jstr "-"))
          ji := pyStr ((pf.lookup "JiDay").getD (.jstr "-")) }) := by
  refine ⟨?_, ?_, ?_, ?_, ?_⟩
  · rcases fetch_quote_cases key response with h | ⟨pf, h⟩
    · exact Or.inl h
    · rcases quoteFromPayload_ne_empty pf with h2 | ⟨s, h2, h3⟩
      · exact Or.inl (h.trans h2)
      · exact Or.inr ⟨s, h.trans h2, h3⟩
  · intro hkey
    constructor <;> simp [fetch_quote, fetch_lunar, hkey]
  · rintro e rfl
    by_cases hkey : key = "" <;>
      constructor <;> simp [fetch_quote, fetch_lunar, hkey]
  · rintro fields rfl hcode
    by_cases hkey : key = "" <;>
      constructor <;> simp [fetch_quote, fetch_lunar, hkey, hcode]
  · rintro fields pf rfl hkey hcode hpay
    simp only [fetch_lunar, if_neg hkey, hcode, if_true, hpay]

/-- Witness for `collectors_total`: an empty key, a timed-out request, and a
`code = 200` response whose payload carries no lunar keys (all fields default
to `"-"`). -/
theorem collectors_total_witness :
    fetch_quote "" (.ok .jnull) = none ∧
    fetch_quote "k" (.error "timeout") = none ∧
    fetch_quote "k" (.ok (.jobj [("code", .jnum 404)])) = none ∧
    fetch_lunar "k" (.ok (.jobj [("code", .jnum 200)])) = some
      { solar := "-", lunar := "-", week := "-", ganzhi_year := "-",
        ganzhi_month := "-", ganzhi_day := "-", constellation := "-",
        yi := "-", ji := "-" } := by
  refine ⟨((collectors_total "" (.ok .jnull)).2.1 rfl).1,
    ((collectors_total "k" (.error "timeout")).2.2.1 "timeout" rfl).1,
    ((collectors_total "k" (.ok (.jobj [("code", .jnum 404)]))).2.2.2.1
      [("code", .jnum 404)] rfl (by decide)).1, ?_⟩
  have h := (collectors_total "k" (.ok (.jobj [("code", .jnum 200)]))).2.2.2.2
    [("code", .jnum 200)] [] rfl (by simp) (by decide) rfl
  exact h
